import Mathlib

/-!
Verification of the flagex command-line parser (package flagex, flagex.go)
against its natural-language specification.

Embedding conventions:
* Go strings are modelled as `List Char` (`Str`).  All string operations the
  parser performs (leading-dash tests, trimming, splitting into characters,
  indexing) are byte/rune-wise on ASCII inputs, where the two views agree.
* The two Go maps of `Flags` (`keys : map[string]*Flag`,
  `short : map[string]string`) are modelled as association lists in insertion
  order.  Go map iteration order is unspecified; every iteration in the
  source (`reset`, `consume`'s exclusivity scan, the validation loop,
  `Exclusive`'s clearing pass) is either order-independent or only the
  *kind* of its outcome is order-independent, and the embedding fixes
  insertion order for the parts where a key is reported.
* In-place mutation through `*Flag` pointers is modelled by functional
  update keyed by the flag's `key` field.  The two coincide on registries in
  which every stored flag's `key` field equals its map key (`coherentK`),
  which holds for every registry built through the public construction
  operations; universally quantified theorems carry this hypothesis where
  the update site matters.
* `Parse`'s recursion into a sub-registry's parser is realised with an
  explicit fuel parameter (`parseRun`).  Each nested dispatch enters a
  strictly shallower registry, so recursion depth is bounded by the registry
  nesting depth; `Flags.Parse` supplies fuel `depthF + 1`, which is never
  exhausted.  Fuel-structural recursion keeps every definition computable
  by kernel reduction.
-/

set_option autoImplicit false

namespace Flagex

abbrev Str : Type := List Char

/-- FlagKind, from flagex.go:45-57. -/
inductive FlagKind : Type where
  | KindOptional : FlagKind
  | KindRequired : FlagKind
  | KindSwitch : FlagKind
  | KindSub : FlagKind
deriving DecidableEq, Repr

/-- The error kinds of flagex.go:19-42 (ErrInvalid, ErrNotFound, ErrDupKey,
ErrDupShort, ErrExcl, ErrRequired, ErrReqVal, ErrSwitch, ErrParams, ErrSub),
keeping only kind and parameters, not message formatting. -/
inductive Err : Type where
  | invalid : Err
  | notFound (key : Str) : Err
  | dupKey (key : Str) : Err
  | dupShort (key : Str) : Err
  | excl (other key : Str) : Err
  | required (key : Str) : Err
  | reqVal (key : Str) : Err
  | switchErr (key : Str) : Err
  | params : Err
  | subErr (key : Str) : Err
deriving DecidableEq, Repr

mutual
/-- Flag, from flagex.go:74-84; field order follows the struct literal at
flagex.go:147. -/
inductive Flag : Type where
  | mk (key shortkey help paramhelp defval : Str) (kind : FlagKind)
      (sub : OptFlags) (excl parsed parsedval : Bool) (value : Str) : Flag
/-- The `sub *Flags` field (nil or a child registry), inlined to keep the
registry tree a purely mutual inductive. -/
inductive OptFlags : Type where
  | none : OptFlags
  | some (fs : Flags) : OptFlags
/-- Flags, from flagex.go:121-126. -/
inductive Flags : Type where
  | mk (keys : KeyList) (short : List (Str × Str)) (last : Str) : Flags
/-- The `keys` association list (key → Flag), inlined for the same reason. -/
inductive KeyList : Type where
  | nil : KeyList
  | cons (key : Str) (fl : Flag) (rest : KeyList) : KeyList
end

def Flag.key : Flag → Str
  | .mk k _ _ _ _ _ _ _ _ _ _ => k

def Flag.shortkey : Flag → Str
  | .mk _ sk _ _ _ _ _ _ _ _ _ => sk

def Flag.help : Flag → Str
  | .mk _ _ h _ _ _ _ _ _ _ _ => h

def Flag.paramhelp : Flag → Str
  | .mk _ _ _ ph _ _ _ _ _ _ _ => ph

def Flag.defval : Flag → Str
  | .mk _ _ _ _ dv _ _ _ _ _ _ => dv

def Flag.kind : Flag → FlagKind
  | .mk _ _ _ _ _ kd _ _ _ _ _ => kd

def Flag.sub : Flag → OptFlags
  | .mk _ _ _ _ _ _ sb _ _ _ _ => sb

def Flag.excl : Flag → Bool
  | .mk _ _ _ _ _ _ _ ex _ _ _ => ex

def Flag.parsed : Flag → Bool
  | .mk _ _ _ _ _ _ _ _ p _ _ => p

def Flag.parsedval : Flag → Bool
  | .mk _ _ _ _ _ _ _ _ _ pv _ => pv

def Flag.value : Flag → Str
  | .mk _ _ _ _ _ _ _ _ _ _ v => v

def Flag.withParsed : Flag → Bool → Flag
  | .mk k sk h ph dv kd sb ex _ pv v, b => .mk k sk h ph dv kd sb ex b pv v

def Flag.withParsedval : Flag → Bool → Flag
  | .mk k sk h ph dv kd sb ex p _ v, b => .mk k sk h ph dv kd sb ex p b v

def Flag.withValue : Flag → Str → Flag
  | .mk k sk h ph dv kd sb ex p pv _, nv => .mk k sk h ph dv kd sb ex p pv nv

def Flag.withSub : Flag → OptFlags → Flag
  | .mk k sk h ph dv kd _ ex p pv v, ns => .mk k sk h ph dv kd ns ex p pv v

def Flag.withExcl : Flag → Bool → Flag
  | .mk k sk h ph dv kd sb _ p pv v, b => .mk k sk h ph dv kd sb b p pv v

/-- Flag.Value, from flagex.go:114-119. -/
def Flag.Value (fl : Flag) : Str :=
  if !fl.parsed || !fl.parsedval then fl.defval else fl.value

def Flags.keysOf : Flags → KeyList
  | .mk ks _ _ => ks

def Flags.shortOf : Flags → List (Str × Str)
  | .mk _ sh _ => sh

def Flags.lastOf : Flags → Str
  | .mk _ _ la => la

/-- Association-list lookup, modelling `f.keys[key]` (first match wins;
registries never hold duplicate keys). -/
def KeyList.klookup : KeyList → Str → Option Flag
  | .nil, _ => Option.none
  | .cons k fl rest, key => if k = key then Option.some fl else rest.klookup key

/-- Replace the flag stored under `key`, modelling the in-place mutation of
the `*Flag` the map holds under that key. -/
def KeyList.setAt : KeyList → Str → Flag → KeyList
  | .nil, _, _ => .nil
  | .cons k fl rest, key, nfl =>
    if k = key then .cons k nfl rest else .cons k fl (rest.setAt key nfl)

/-- Append a fresh entry (map insertion of a new key, in insertion order). -/
def KeyList.push : KeyList → Str → Flag → KeyList
  | .nil, k, fl => .cons k fl .nil
  | .cons k0 f0 rest, k, fl => .cons k0 f0 (rest.push k fl)

def slookup (k : Str) : List (Str × Str) → Option Str
  | [] => Option.none
  | (k2, v) :: rest => if k2 = k then Option.some v else slookup k rest

/-- Flags.Key, from flagex.go:213-216. -/
def Flags.Key (f : Flags) (key : Str) : Option Flag :=
  f.keysOf.klookup key

/-- Flags.Short, from flagex.go:219-221: `f.Key(f.short[shortkey])`, where a
missing map entry yields the empty string. -/
def Flags.Short (f : Flags) (shortkey : Str) : Option Flag :=
  f.Key ((slookup shortkey f.shortOf).getD [])

def setFlagAt (f : Flags) (key : Str) (nfl : Flag) : Flags :=
  Flags.mk (f.keysOf.setAt key nfl) f.shortOf f.lastOf

def setLast (f : Flags) (s : Str) : Flags :=
  Flags.mk f.keysOf f.shortOf s

/-- New, from flagex.go:129-134. -/
def New : Flags := Flags.mk KeyList.nil [] []

/-- def, from flagex.go:137-153. -/
def Flags.defFlag (f : Flags) (key shortkey help paramhelp defval : Str)
    (typ : FlagKind) : Flags × Option Err :=
  if key = [] then (f, Option.some Err.invalid)
  else if (f.keysOf.klookup key).isSome then (f, Option.some (Err.dupKey key))
  else if shortkey ≠ [] ∧ (slookup shortkey f.shortOf).isSome then
    (f, Option.some (Err.dupShort shortkey))
  else
    (Flags.mk
      (f.keysOf.push key (Flag.mk key shortkey help paramhelp defval typ
        OptFlags.none false false false []))
      (if shortkey = [] then f.shortOf else f.shortOf ++ [(shortkey, key)])
      f.lastOf,
      Option.none)

/-- Switch, from flagex.go:156-159. -/
def Flags.Switch (f : Flags) (key shortkey help : Str) : Flags × Option Err :=
  f.defFlag key shortkey help [] [] FlagKind.KindSwitch

/-- Opt, from flagex.go:162-165. -/
def Flags.Opt (f : Flags) (key shortkey help paramhelp defval : Str) : Flags × Option Err :=
  f.defFlag key shortkey help paramhelp defval FlagKind.KindOptional

/-- Req, from flagex.go:168-171. -/
def Flags.Req (f : Flags) (key shortkey help paramhelp defval : Str) : Flags × Option Err :=
  f.defFlag key shortkey help paramhelp defval FlagKind.KindRequired

/-- Def, from flagex.go:177-180. -/
def Flags.Def (f : Flags) (key shortkey help paramhelp defval : Str)
    (typ : FlagKind) : Flags × Option Err :=
  f.defFlag key shortkey help paramhelp defval typ

/-- Sub, from flagex.go:185-192: define under KindSub, then attach the child
registry to the fresh flag. -/
def Flags.Sub (f : Flags) (key shortkey help : Str) (sub : Flags) : Flags × Option Err :=
  match f.defFlag key shortkey help [] [] FlagKind.KindSub with
  | (f2, Option.some e) => (f2, Option.some e)
  | (f2, Option.none) =>
    match f2.Key key with
    | Option.some fl => (setFlagAt f2 key (fl.withSub (OptFlags.some sub)), Option.none)
    | Option.none => (f2, Option.none)

def KeyList.clearExcl : KeyList → KeyList
  | .nil => .nil
  | .cons k fl rest => .cons k (fl.withExcl false) rest.clearExcl

def exclLoop (f : Flags) : List Str → Flags × Option Err
  | [] => (f, Option.none)
  | k :: rest =>
    match f.Key k with
    | Option.none => (f, Option.some (Err.notFound k))
    | Option.some fl => exclLoop (setFlagAt f k (fl.withExcl true)) rest

/-- Exclusive, from flagex.go:198-210: clear every flag's exclusivity first,
then mark the named keys one at a time, stopping at the first undefined key. -/
def Flags.Exclusive (f : Flags) (keys : List Str) : Flags × Option Err :=
  exclLoop (Flags.mk f.keysOf.clearExcl f.shortOf f.lastOf) keys

mutual
/-- reset, from flagex.go:224-233. -/
def Flags.reset : Flags → Flags
  | .mk ks sh la => .mk ks.resetAll sh la
def KeyList.resetAll : KeyList → KeyList
  | .nil => .nil
  | .cons k fl rest => .cons k fl.resetF rest.resetAll
def Flag.resetF : Flag → Flag
  | .mk k sk h ph dv kd sb ex _ _ _ => .mk k sk h ph dv kd sb.resetO ex false false []
def OptFlags.resetO : OptFlags → OptFlags
  | .none => .none
  | .some fs => .some fs.reset
end

mutual
/-- Nesting depth of a registry tree; bounds the recursion depth of Parse's
sub-dispatch and hence serves as the fuel for `parseRun`. -/
def Flags.depthF : Flags → Nat
  | .mk ks _ _ => ks.depthK + 1
def KeyList.depthK : KeyList → Nat
  | .nil => 0
  | .cons _ fl rest => fl.depthFl + rest.depthK
def Flag.depthFl : Flag → Nat
  | .mk _ _ _ _ _ _ sb _ _ _ _ => sb.depthO
def OptFlags.depthO : OptFlags → Nat
  | .none => 0
  | .some fs => fs.depthF
end

/-- The character class of Go's strings.TrimSpace cutset, restricted to the
ASCII whitespace characters (the parser's inputs here are ASCII). -/
def goIsSpace (c : Char) : Bool :=
  c = ' ' || c = '\t' || c = '\n' || c = '\x0b' || c = '\x0c' || c = '\r'

/-- strings.TrimSpace on the character-list view. -/
def trimSpace (s : Str) : Str :=
  ((s.dropWhile goIsSpace).reverse.dropWhile goIsSpace).reverse

/-- strings.Join(args, " "), used only for the write-only `last` field. -/
def joinSpace : List Str → Str
  | [] => []
  | [x] => x
  | x :: xs => x ++ ' ' :: joinSpace xs

/-- matchcombined, from flagex.go:236-251.  In the source the for-loop body
ends in an unconditional `return true`, so only the iteration i = 0 ever
runs, and there the local variable `flag` is still nil, which falsifies the
guard `!ok && flag != nil && flag.sub != nil` of the recursive branch; the
branch and all later iterations are unreachable.  The function therefore
returns false exactly on the empty string (loop body never entered) and true
otherwise.  The first iteration's shape is kept below: `ok` is the lookup of
the first character and the dead branch is the `if` with the `flag != nil`
conjunct replaced by its value `false`. -/
def Flags.matchcombined (f : Flags) (arg : Str) : Bool :=
  match arg with
  | [] => false
  | c :: _ =>
    let ok := (f.Short [c]).isSome
    if !ok && false then false else true

/-- findflag, from flagex.go:255-277.  `strings.HasPrefix(arg, "-")` and
`strings.TrimPrefix` become the head-character test and tail; the `key[0]`
access in the cluster branch is guarded by `matchcombined key`, which implies
`key` is non-empty. -/
def Flags.findflag (f : Flags) (arg : Str) : Option Flag :=
  match arg with
  | [] => Option.none
  | a0 :: key =>
    if a0 = '-' then
      match
        (match key with
         | [] => f.Short key
         | c :: _ => if f.matchcombined key then f.Short [c] else f.Short key) with
      | Option.some fl => Option.some fl
      | Option.none =>
        match key with
        | [] => Option.none
        | k0 :: rest => if k0 = '-' then f.Key rest else Option.none
    else Option.none

/-- The scan inside consume's exclusivity check (flagex.go:290-294): first
flag that is both parsed and exclusive. -/
def findExclParsed : KeyList → Option Flag
  | .nil => Option.none
  | .cons _ fl rest => if fl.parsed && fl.excl then Option.some fl else findExclParsed rest

def consumeSet (f : Flags) (key : Str) (fl : Flag) (value : Str) : Flags :=
  if value = [] then setFlagAt f key (fl.withParsed true)
  else setFlagAt f key (((fl.withParsed true).withValue value).withParsedval true)

/-- consume, from flagex.go:280-302. -/
def consume (f : Flags) (key value : Str) : Flags × Option Err :=
  match f.Key key with
  | Option.none => (f, Option.some (Err.notFound key))
  | Option.some fl =>
    if fl.parsed then (f, Option.some (Err.dupKey key))
    else if fl.excl then
      match findExclParsed f.keysOf with
      | Option.some v => (f, Option.some (Err.excl v.key key))
      | Option.none => (consumeSet f key fl value, Option.none)
    else (consumeSet f key fl value, Option.none)

/-- The final validation loop of Parse (flagex.go:384-395). -/
def validateLoop : KeyList → Bool → Option Err
  | .nil, noparse => if noparse then Option.some Err.params else Option.none
  | .cons _ fl rest, noparse =>
    if fl.kind = FlagKind.KindRequired ∧ fl.parsed = false then Option.some (Err.required fl.key)
    else validateLoop rest (noparse && !fl.parsed)

/-- The code after Parse's token loop (flagex.go:372-396): flush a pending
token, then validate. -/
def flushAndValidate (f : Flags) (saved : Str) : Flags × Option Err :=
  if saved = [] then (f, validateLoop f.keysOf true)
  else
    match f.findflag saved with
    | Option.none => (f, Option.some (Err.notFound saved))
    | Option.some p =>
      if p.kind = FlagKind.KindRequired then (f, Option.some (Err.reqVal saved))
      else
        match consume f p.key [] with
        | (f2, Option.some e) => (f2, Option.some e)
        | (f2, Option.none) => (f2, validateLoop f2.keysOf true)

/-- The token loop of Parse (flagex.go:312-371), one iteration per list
element; `saved` is the pending token.  `subP` is the parser invoked for a
sub-dispatch (instantiated with `parseRun fuel` below), keeping this
definition structurally recursive on the token list.  Mirrors the source
exactly: note that a token that matched a flag is saved *untrimmed*
(flagex.go:356 `saved = args[i]`), while the other two save sites store the
trimmed form. -/
def parseLoop (subP : Flags → List Str → Flags × Option Err) (f : Flags) (saved : Str) :
    List Str → Flags × Option Err
  | [] => flushAndValidate f saved
  | cur :: later =>
    if trimSpace cur = [] then parseLoop subP f saved later
    else
      match f.findflag (trimSpace cur) with
      | Option.none =>
        if saved = [] then parseLoop subP f (trimSpace cur) later
        else
          match f.findflag saved with
          | Option.none => (f, Option.some (Err.notFound saved))
          | Option.some p =>
            if p.kind = FlagKind.KindSwitch then (f, Option.some (Err.switchErr p.key))
            else
              match consume f p.key (trimSpace cur) with
              | (f2, Option.some e) => (f2, Option.some e)
              | (f2, Option.none) => parseLoop subP f2 [] later
      | Option.some fl =>
        if saved = [] then
          match fl.sub with
          | OptFlags.some s =>
            if later = [] ∧ f.matchcombined (trimSpace cur) = true ∧
                ((trimSpace cur).drop 1).length = 1 then
              (f, Option.some (Err.subErr fl.key))
            else
              if f.matchcombined (trimSpace cur) then
                match subP s ((((trimSpace cur).drop 1).map (fun c => ['-', c])).drop 1 ++ later) with
                | (s2, err) =>
                  (setFlagAt f fl.key ((fl.withParsed true).withSub (OptFlags.some s2)), err)
              else
                match subP s later with
                | (s2, err) =>
                  (setFlagAt f fl.key ((fl.withParsed true).withSub (OptFlags.some s2)), err)
          | OptFlags.none => parseLoop subP f cur later
        else
          match f.findflag saved with
          | Option.none => (f, Option.some (Err.notFound saved))
          | Option.some p =>
            if p.kind = FlagKind.KindRequired then (f, Option.some (Err.reqVal saved))
            else
              match consume f p.key [] with
              | (f2, Option.some e) => (f2, Option.some e)
              | (f2, Option.none) => parseLoop subP f2 (trimSpace cur) later

/-- Parse with explicit fuel for the nesting of sub-dispatches.  Fuel 0 is
never reached when started with fuel exceeding the registry depth, because
each dispatch enters a strictly shallower registry. -/
def parseRun : Nat → Flags → List Str → Flags × Option Err
  | 0, f, _ => (f, Option.some Err.params)
  | Nat.succ n, f, args =>
    parseLoop (parseRun n) (Flags.reset (setLast f (joinSpace args))) [] args

/-- Parse, from flagex.go:305-397: record `last`, reset all state, run the
token loop, flush, validate.  The mutation of the receiver is modelled by
returning the updated registry alongside the error. -/
def Flags.Parse (f : Flags) (args : List Str) : Flags × Option Err :=
  parseRun (f.depthF + 1) f args

/-- Observer: the `parsed` field of the flag stored under `k` (false for an
absent key). -/
def parsedAt (f : Flags) (k : Str) : Bool :=
  match f.Key k with
  | Option.some fl => fl.parsed
  | Option.none => false

/-- Observer: the `parsedval` field ("has value") of the flag stored under
`k` (false for an absent key). -/
def parsedvalAt (f : Flags) (k : Str) : Bool :=
  match f.Key k with
  | Option.some fl => fl.parsedval
  | Option.none => false

/-- Observer: the raw `value` field of the flag stored under `k`. -/
def valueAt (f : Flags) (k : Str) : Str :=
  match f.Key k with
  | Option.some fl => fl.value
  | Option.none => []

/-- Observer: the `excl` field of the flag stored under `k`. -/
def exclAt (f : Flags) (k : Str) : Bool :=
  match f.Key k with
  | Option.some fl => fl.excl
  | Option.none => false

/-- Observer: the declared default of the flag stored under `k`. -/
def defvalAt (f : Flags) (k : Str) : Str :=
  match f.Key k with
  | Option.some fl => fl.defval
  | Option.none => []

/-- Observer: `Flag.Value` of the flag stored under `k` (empty for an absent
key, as in the spec's description of `Value`). -/
def ValueAt (f : Flags) (k : Str) : Str :=
  match f.Key k with
  | Option.some fl => fl.Value
  | Option.none => []

/-- Coherence of a registry's key map: every stored flag's `key` field equals
the map key it is stored under.  Holds for all registries built through the
construction operations; it is what makes functional update by key agree with
Go's in-place mutation through the looked-up pointer. -/
def coherentK : KeyList → Bool
  | .nil => true
  | .cons k fl rest => fl.key = k && coherentK rest

/-- The concrete registry of spec section 8: ip Required; config Required
with short c; verbose Switch with short v; mode Optional default "best" with
short M. -/
def reg8 : Flags :=
  (((((New.Req ("ip".toList) [] [] [] [])).1.Req ("config".toList) ("c".toList) [] [] []).1.Switch
      ("verbose".toList) ("v".toList) []).1.Opt ("mode".toList) ("M".toList) [] []
    ("best".toList)).1

/-- Registry for claims about leftover state after a failed parse: a Switch
`verbose`/`v` and a Required `ip` (no Sub flags anywhere). -/
def c4reg : Flags :=
  ((New.Switch ("verbose".toList) ("v".toList) []).1.Req ("ip".toList) [] [] [] []).1

/-- Registry with a single Switch `verbose`/`v`, for the whitespace claims. -/
def c7reg : Flags := (New.Switch ("verbose".toList) ("v".toList) []).1

/-- Registry with a single Required `config`/`c`. -/
def c8reg : Flags := (New.Req ("config".toList) ("c".toList) [] [] []).1

/-- Child registry of four switches whose short keys are the characters of
"sync" (s, y, n, c), so that the split-out cluster characters of a long-form
`--sync` token all resolve inside it. -/
def c2child : Flags :=
  ((((New.Switch ("sss".toList) ("s".toList) []).1.Switch ("yes".toList) ("y".toList) []).1.Switch
      ("no".toList) ("n".toList) []).1.Switch ("cfg".toList) ("c".toList) []).1

/-- Root registry with the Sub flag `sync` (no short key) owning `c2child`. -/
def c2root : Flags := (New.Sub ("sync".toList) [] [] c2child).1

/-- Child registry with one Optional flag, for the pending-Sub claims. -/
def c3child : Flags := (New.Opt ("install".toList) ("i".toList) [] [] []).1

/-- Root registry: Switch `verbose`/`v` and Sub `sync`/`S` owning `c3child`. -/
def c3root : Flags :=
  ((New.Switch ("verbose".toList) ("v".toList) []).1.Sub ("sync".toList) ("S".toList) []
    c3child).1

/-- Two plain switches `alpha` and `beta`. -/
def c6base : Flags := ((New.Switch ("alpha".toList) [] []).1.Switch ("beta".toList) [] []).1

/-- `c6base` with `beta` made exclusive by a successful Exclusive call — the
"previous exclusive set" of the Exclusive claim. -/
def c6f : Flags := (c6base.Exclusive [("beta".toList)]).1

/-- Registry with one flag whose declared short key has two characters. -/
def c10reg : Flags := (New.Opt ("name".toList) ("xy".toList) [] [] []).1

/-- The single flag stored in `c10reg`. -/
def c10flag : Flag :=
  Flag.mk ("name".toList) ("xy".toList) [] [] [] FlagKind.KindOptional OptFlags.none
    false false false []

/-- The flag stored in `c8reg`. -/
def c8config : Flag :=
  Flag.mk ("config".toList) ("c".toList) [] [] [] FlagKind.KindRequired OptFlags.none
    false false false []

/-- The Sub flag stored in `c3root` (child registry attached). -/
def c3sync : Flag :=
  Flag.mk ("sync".toList) ("S".toList) [] [] [] FlagKind.KindSub (OptFlags.some c3child)
    false false false []

/-- The flag stored under `alpha` after the failed Exclusive call on `c6f`. -/
def c6alphaExcl : Flag :=
  Flag.mk ("alpha".toList) [] [] [] [] FlagKind.KindSwitch OptFlags.none true false false []

/-- Static-content preservation relation: every key of `f` is still present
in `g` with the same declared default. -/
def Rdef (f g : Flags) : Prop :=
  ∀ k, (g.Key k).map Flag.defval = (f.Key k).map Flag.defval

/-- The `mode` flag as stored in `reg8`. -/
def reg8mode : Flag :=
  Flag.mk ("mode".toList) ("M".toList) [] [] ("best".toList) FlagKind.KindOptional
    OptFlags.none false false false []

/-- A successful parse of `reg8` that never mentions `mode`. -/
def c9args : List Str :=
  [("--config".toList), ("x".toList), ("--ip".toList), ("y".toList)]

/-- Claim C1.  The claim states that the cluster matcher walks the characters
one at a time against the registry's short-key index and fails whenever a
character does not resolve; in particular a first character that is no
defined short key makes the match fail.  The code violates this: the loop
body of matchcombined (flagex.go:239-249) ends in an unconditional
`return true`, so the function returns true on every non-empty sequence.
Evaluated at the failing input — the empty registry, where no character at
all is a defined short key — the cluster match still succeeds. -/
theorem C1_matchcombined_never_fails :
    New.matchcombined ("x".toList) = true ∧ New.Short ("x".toList) = Option.none :=
  ⟨rfl, rfl⟩

/-- Claim C2.  The claim states that a Sub flag matched from a long-form
token (two leading dashes, hence no cluster remainder) dispatches exactly
the subsequent tokens to the child parser.  The code violates this: because
matchcombined returns true for every non-empty string, Parse always takes
the cluster-splitting dispatch (flagex.go:347-352) and hands the child the
characters of the token body after the first, each promoted to a
single-dash token, prepended to the subsequent tokens.  Evaluated at the
failing input `["--sync", "-y"]` against `c2root`: the child receives
`["-s", "-y", "-n", "-c", "-y"]` and fails with a duplicate on `yes`,
whereas the claimed dispatch of exactly `["-y"]` succeeds (second
conjunct). -/
theorem C2_long_form_sub_dispatch_splits :
    (Flags.Parse c2root [("--sync".toList), ("-y".toList)]).2 =
        Option.some (Err.dupKey ("yes".toList)) ∧
      (Flags.Parse c2child [("-y".toList)]).2 = Option.none :=
  ⟨rfl, rfl⟩

/-- Claim C5, counterexample.  Parse of the empty token sequence on the
concrete registry of spec section 8 does not fail with the NoArguments
error (ErrParams): required-flag validation runs first. -/
theorem C5_counterexample : (Flags.Parse reg8 []).2 ≠ Option.some Err.params := by
  decide

/-- Claim C5, amended.  Parse of the empty token sequence on the section-8
registry fails with the RequiredMissing error naming the required flag `ip`
(the first required, unparsed flag in insertion order): the validation loop
of flagex.go:384-395 checks required flags before the no-arguments
condition, so NoArguments can only be reported when no required flag is
missing. -/
theorem C5_empty_input_required_first :
    (Flags.Parse reg8 []).2 = Option.some (Err.required ("ip".toList)) :=
  rfl

/-- Claim C4, counterexample.  On the Sub-free registry `c4reg` (Switch
`verbose`/`v`, Required `ip`), Parse of `["-v"]` fails (RequiredMissing for
`ip`), yet `verbose` remains marked as parsed — mutable state from the
failed pass is observable, unlike the claimed all-false/empty
post-construction state. -/
theorem C4_counterexample :
    (Flags.Parse c4reg [("-v".toList)]).2 = Option.some (Err.required ("ip".toList)) ∧
      parsedAt (Flags.Parse c4reg [("-v".toList)]).1 ("verbose".toList) = true :=
  ⟨rfl, rfl⟩

/-- Claim C7, counterexample.  Replacing a token by its whitespace-trimmed
form changes the result of Parse: `[" -v "]` fails with NotFound (the
matched flag token is saved untrimmed at flagex.go:356 and then no longer
resolves), while the trimmed `["-v"]` succeeds. -/
theorem C7_counterexample :
    (Flags.Parse c7reg [(" -v ".toList)]).2 = Option.some (Err.notFound (" -v ".toList)) ∧
      (Flags.Parse c7reg [("-v".toList)]).2 = Option.none :=
  ⟨rfl, rfl⟩

/-- Claim C8, counterexample.  A pending token resolving to the Required
flag `config`, followed by the plain token "y", is not always consumed with
"y" bound as its value: if the flag was already parsed earlier in the pass,
Parse fails with Duplicate and the earlier value "x" is kept. -/
theorem C8_counterexample :
    (Flags.Parse c8reg [("-c".toList), ("x".toList), ("-c".toList), ("y".toList)]).2 =
        Option.some (Err.dupKey ("config".toList)) ∧
      valueAt (Flags.Parse c8reg
          [("-c".toList), ("x".toList), ("-c".toList), ("y".toList)]).1 ("config".toList) =
        ("x".toList) :=
  ⟨rfl, rfl⟩

/-- Claim C3, counterexample.  After Parse of `["-v", "-S", "xyz"]` on
`c3root` the parse succeeds and the Sub flag `sync` — whose child registry
is attached — holds the textual value "xyz" with hasValue true: the pending
token `-S` was resolved as a value-awaiting flag and the unresolvable token
"xyz" was bound as its value instead of being dispatched into the child
registry. -/
theorem C3_counterexample :
    (Flags.Parse c3root [("-v".toList), ("-S".toList), ("xyz".toList)]).2 = Option.none ∧
      parsedvalAt (Flags.Parse c3root
          [("-v".toList), ("-S".toList), ("xyz".toList)]).1 ("sync".toList) = true ∧
      valueAt (Flags.Parse c3root
          [("-v".toList), ("-S".toList), ("xyz".toList)]).1 ("sync".toList) = ("xyz".toList) ∧
      parsedAt (Flags.Parse c3root
          [("-v".toList), ("-S".toList), ("xyz".toList)]).1 ("sync".toList) = true :=
  ⟨rfl, rfl, rfl, rfl⟩

/-- Claim C6, counterexample.  Calling Exclusive with `["alpha", "zzz"]` on a
registry where `zzz` is undefined returns NotFound, but `alpha` — processed
before the undefined key — is left marked exclusive, contradicting the
claimed "no flag is marked exclusive afterwards".  (`beta`, the previously
exclusive flag, has indeed been cleared.) -/
theorem C6_counterexample :
    (c6f.Exclusive [("alpha".toList), ("zzz".toList)]).2 =
        Option.some (Err.notFound ("zzz".toList)) ∧
      exclAt (c6f.Exclusive [("alpha".toList), ("zzz".toList)]).1 ("alpha".toList) = true ∧
      exclAt (c6f.Exclusive [("alpha".toList), ("zzz".toList)]).1 ("beta".toList) = false :=
  ⟨rfl, rfl, rfl⟩

/-- Claim C10, counterexample.  A flag declared with the two-character short
key "xy" is nonetheless resolved from the input token `--name` (long-form
lookup by its full key), refuting "never resolved from any input token". -/
theorem C10_counterexample :
    c10reg.findflag ("--name".toList) = Option.some c10flag ∧
      c10flag.shortkey.length = 2 ∧
      c10reg.findflag ("-xy".toList) = Option.none :=
  ⟨rfl, rfl, rfl⟩

@[simp] theorem Flag.withParsed_key (fl : Flag) (b : Bool) : (fl.withParsed b).key = fl.key := by
  cases fl; rfl

@[simp] theorem Flag.withParsed_defval (fl : Flag) (b : Bool) :
    (fl.withParsed b).defval = fl.defval := by
  cases fl; rfl

@[simp] theorem Flag.withParsedval_key (fl : Flag) (b : Bool) :
    (fl.withParsedval b).key = fl.key := by
  cases fl; rfl

@[simp] theorem Flag.withParsedval_defval (fl : Flag) (b : Bool) :
    (fl.withParsedval b).defval = fl.defval := by
  cases fl; rfl

@[simp] theorem Flag.withValue_key (fl : Flag) (nv : Str) : (fl.withValue nv).key = fl.key := by
  cases fl; rfl

@[simp] theorem Flag.withValue_defval (fl : Flag) (nv : Str) :
    (fl.withValue nv).defval = fl.defval := by
  cases fl; rfl

@[simp] theorem Flag.withSub_key (fl : Flag) (ns : OptFlags) : (fl.withSub ns).key = fl.key := by
  cases fl; rfl

@[simp] theorem Flag.withSub_defval (fl : Flag) (ns : OptFlags) :
    (fl.withSub ns).defval = fl.defval := by
  cases fl; rfl

@[simp] theorem Flag.withExcl_key (fl : Flag) (b : Bool) : (fl.withExcl b).key = fl.key := by
  cases fl; rfl

@[simp] theorem Flag.withExcl_defval (fl : Flag) (b : Bool) :
    (fl.withExcl b).defval = fl.defval := by
  cases fl; rfl

@[simp] theorem Flag.withExcl_excl (fl : Flag) (b : Bool) : (fl.withExcl b).excl = b := by
  cases fl; rfl

@[simp] theorem Flag.withParsedval_sub (fl : Flag) (b : Bool) :
    (fl.withParsedval b).sub = fl.sub := by
  cases fl; rfl

@[simp] theorem Flag.withValue_sub (fl : Flag) (nv : Str) : (fl.withValue nv).sub = fl.sub := by
  cases fl; rfl

@[simp] theorem Flag.withParsed_sub (fl : Flag) (b : Bool) : (fl.withParsed b).sub = fl.sub := by
  cases fl; rfl

@[simp] theorem Flag.resetF_key (fl : Flag) : fl.resetF.key = fl.key := by
  cases fl; rfl

@[simp] theorem Flag.resetF_defval (fl : Flag) : fl.resetF.defval = fl.defval := by
  cases fl; rfl

/-- In the current source, matchcombined succeeds exactly on non-empty
sequences (see the comment on `Flags.matchcombined`). -/
theorem matchcombined_eq (f : Flags) (arg : Str) : f.matchcombined arg = !arg.isEmpty := by
  cases arg <;> simp [Flags.matchcombined]

mutual
theorem KeyList.resetAll_idem : ∀ ks : KeyList, ks.resetAll.resetAll = ks.resetAll
  | .nil => rfl
  | .cons k fl rest => by
    simp [KeyList.resetAll, Flag.resetF_idem fl, KeyList.resetAll_idem rest]
theorem Flag.resetF_idem : ∀ fl : Flag, fl.resetF.resetF = fl.resetF
  | .mk k sk h ph dv kd sb ex p pv v => by
    simp [Flag.resetF, OptFlags.resetO_idem sb]
theorem OptFlags.resetO_idem : ∀ o : OptFlags, o.resetO.resetO = o.resetO
  | .none => rfl
  | .some fs => by simp [OptFlags.resetO, Flags.reset_idem fs]
theorem Flags.reset_idem : ∀ fs : Flags, fs.reset.reset = fs.reset
  | .mk ks sh la => by simp [Flags.reset, KeyList.resetAll_idem ks]
end

mutual
theorem KeyList.depthK_resetAll : ∀ ks : KeyList, ks.resetAll.depthK = ks.depthK
  | .nil => rfl
  | .cons k fl rest => by
    simp [KeyList.resetAll, KeyList.depthK, Flag.depthFl_resetF fl, KeyList.depthK_resetAll rest]
theorem Flag.depthFl_resetF : ∀ fl : Flag, fl.resetF.depthFl = fl.depthFl
  | .mk k sk h ph dv kd sb ex p pv v => by
    simp [Flag.resetF, Flag.depthFl, OptFlags.depthO_resetO sb]
theorem OptFlags.depthO_resetO : ∀ o : OptFlags, o.resetO.depthO = o.depthO
  | .none => rfl
  | .some fs => by simp [OptFlags.resetO, OptFlags.depthO, Flags.depthF_reset fs]
theorem Flags.depthF_reset : ∀ fs : Flags, fs.reset.depthF = fs.depthF
  | .mk ks sh la => by simp [Flags.reset, Flags.depthF, KeyList.depthK_resetAll ks]
end

theorem reset_setLast (f : Flags) (s : Str) :
    (setLast f s).reset = setLast f.reset s := by
  cases f; rfl

/-- Claim C7, amended.  A token that trims to the empty string is skipped
when the token loop reaches it: processing `cur :: later` with
`trimSpace cur = []` is the same as processing `later` (flagex.go:313-316).
The original claim's stronger statements — that Parse is invariant under
pre-trimming every token and that an empty token never affects the outcome —
fail (see the counterexample): a token that matched a flag is saved
untrimmed (flagex.go:356), and a trailing empty token changes the
last-token test of the Sub-dispatch branch for the token before it. -/
theorem C7_empty_token_skipped (subP : Flags → List Str → Flags × Option Err)
    (f : Flags) (saved cur : Str) (later : List Str) (h : trimSpace cur = []) :
    parseLoop subP f saved (cur :: later) = parseLoop subP f saved later := by
  simp [parseLoop, h]

/-- Witness for C7_empty_token_skipped at a concrete blank token. -/
theorem C7_witness :
    trimSpace ("  ".toList) = [] ∧
      parseLoop (parseRun 0) c7reg [] [("  ".toList)] = parseLoop (parseRun 0) c7reg [] [] :=
  ⟨rfl, C7_empty_token_skipped (parseRun 0) c7reg [] ("  ".toList) [] rfl⟩

/-- Claim C4, amended.  Parse resets every flag's mutable state (recursively
through all child registries) before any token is processed, so the outcome
of Parse depends only on the reset image of the key map and on the short-key
map: two registries agreeing on those — in particular a freshly built
registry and the same registry carrying the leftover state of a failed
earlier pass — parse identically.  The original claim's stronger statement,
that after a failed Parse all state equals the post-construction state,
fails: flags consumed before the failure point remain marked (see the
counterexample). -/
theorem C4_reset_no_leak (f g : Flags) (args : List Str)
    (h1 : f.reset.keysOf = g.reset.keysOf) (h2 : f.shortOf = g.shortOf) :
    Flags.Parse f args = Flags.Parse g args := by
  cases f with
  | mk ksf shf laf =>
    cases g with
    | mk ksg shg lag =>
      have hks : ksf.resetAll = ksg.resetAll := by
        simpa [Flags.reset, Flags.keysOf] using h1
      have hsh : shf = shg := by simpa [Flags.shortOf] using h2
      have hd : ksf.depthK = ksg.depthK := by
        rw [← KeyList.depthK_resetAll ksf, ← KeyList.depthK_resetAll ksg, hks]
      unfold Flags.Parse
      show parseRun (Nat.succ (Flags.mk ksf shf laf).depthF) _ args =
        parseRun (Nat.succ (Flags.mk ksg shg lag).depthF) _ args
      simp only [parseRun, Flags.depthF, Flags.reset, setLast, Flags.keysOf, Flags.shortOf,
        hks, hsh, hd]

/-- Witness for C4_reset_no_leak: the registry left behind by a failed parse
on `c4reg` has the same reset image of its key map as `c4reg` itself, so the
next Parse is unaffected by the leftover state of the failed pass. -/
theorem C4_witness :
    ((Flags.Parse c4reg [("-v".toList)]).1).reset.keysOf = c4reg.reset.keysOf ∧
      Flags.Parse (Flags.Parse c4reg [("-v".toList)]).1 [("-v".toList)] =
        Flags.Parse c4reg [("-v".toList)] :=
  ⟨rfl, C4_reset_no_leak (Flags.Parse c4reg [("-v".toList)]).1 c4reg [("-v".toList)] rfl rfl⟩

@[simp] theorem Flag.withParsedval_parsedval (fl : Flag) (b : Bool) :
    (fl.withParsedval b).parsedval = b := by
  cases fl; rfl

@[simp] theorem Flag.withParsedval_value (fl : Flag) (b : Bool) :
    (fl.withParsedval b).value = fl.value := by
  cases fl; rfl

@[simp] theorem Flag.withValue_value (fl : Flag) (nv : Str) : (fl.withValue nv).value = nv := by
  cases fl; rfl

/-- Claim C8, amended.  For a pending token that resolves to a Required
flag: (i) if the next non-blank token also resolves to a flag, the loop
fails with RequiresValue (flagex.go:360-366); (ii) at end of input the flush
fails with RequiresValue (flagex.go:372-379); (iii) if the next non-blank
token does not resolve to a flag, the Required flag is consumed with that
token bound as its value — provided the flag was not already parsed in this
pass and its consumption raises no exclusivity conflict; otherwise Parse
fails with the Duplicate or Exclusive error of consume (see the
counterexample for the duplicate case). -/
theorem C8_required_value_resolution :
    (∀ (subP : Flags → List Str → Flags × Option Err) (f : Flags) (cur : Str)
        (later : List Str) (saved : Str) (p g : Flag),
        trimSpace cur ≠ [] → f.findflag (trimSpace cur) = Option.some g →
        saved ≠ [] → f.findflag saved = Option.some p →
        p.kind = FlagKind.KindRequired →
        parseLoop subP f saved (cur :: later) = (f, Option.some (Err.reqVal saved))) ∧
    (∀ (subP : Flags → List Str → Flags × Option Err) (f : Flags) (saved : Str) (p : Flag),
        saved ≠ [] → f.findflag saved = Option.some p →
        p.kind = FlagKind.KindRequired →
        parseLoop subP f saved [] = (f, Option.some (Err.reqVal saved))) ∧
    (∀ (subP : Flags → List Str → Flags × Option Err) (f : Flags) (cur : Str)
        (later : List Str) (saved : Str) (p : Flag),
        trimSpace cur ≠ [] → f.findflag (trimSpace cur) = Option.none →
        saved ≠ [] → f.findflag saved = Option.some p →
        p.kind = FlagKind.KindRequired → f.Key p.key = Option.some p →
        p.parsed = false → (p.excl = true → findExclParsed f.keysOf = Option.none) →
        parseLoop subP f saved (cur :: later) =
          parseLoop subP
            (setFlagAt f p.key
              (((p.withParsed true).withValue (trimSpace cur)).withParsedval true))
            [] later) := by
  refine ⟨?_, ?_, ?_⟩
  · intro subP f cur later saved p g h1 hg hs hp hk
    simp [parseLoop, h1, hg, hs, hp, hk]
  · intro subP f saved p hs hp hk
    simp [parseLoop, flushAndValidate, hs, hp, hk]
  · intro subP f cur later saved p h1 hn hs hp hk hkey hpar hexcl
    by_cases hpe : p.excl = true
    · simp [parseLoop, h1, hn, hs, hp, hk, consume, hkey, hpar, hpe, hexcl hpe, consumeSet]
    · simp only [Bool.not_eq_true] at hpe
      simp [parseLoop, h1, hn, hs, hp, hk, consume, hkey, hpar, hpe, consumeSet]

/-- Witness for C8_required_value_resolution: the three scenarios
instantiated on `c8reg` with pending token `-c`. -/
theorem C8_witness :
    parseLoop (parseRun 0) c8reg ("-c".toList) [("-c".toList)] =
        (c8reg, Option.some (Err.reqVal ("-c".toList))) ∧
      parseLoop (parseRun 0) c8reg ("-c".toList) [] =
        (c8reg, Option.some (Err.reqVal ("-c".toList))) ∧
      parseLoop (parseRun 0) c8reg ("-c".toList) [("y".toList)] =
        parseLoop (parseRun 0)
          (setFlagAt c8reg c8config.key
            (((c8config.withParsed true).withValue (trimSpace ("y".toList))).withParsedval true))
          [] [] :=
  ⟨C8_required_value_resolution.1 (parseRun 0) c8reg ("-c".toList) [] ("-c".toList) c8config
      c8config (by decide) rfl (by decide) rfl rfl,
    C8_required_value_resolution.2.1 (parseRun 0) c8reg ("-c".toList) c8config (by decide)
      rfl rfl,
    C8_required_value_resolution.2.2 (parseRun 0) c8reg ("y".toList) [] ("-c".toList) c8config
      (by decide) rfl (by decide) rfl rfl rfl rfl (fun h => absurd h (by decide))⟩

/-- Claim C3, amended.  A Sub flag that becomes the pending token (possible
when it follows another pending flag, or for a KindSub flag defined with no
child) and is followed by a token that does not resolve to a flag is
consumed with that token bound as its textual value — the parser has no
pending-Sub dispatch branch, the update leaves the child registry untouched
(`sub` unchanged), and afterwards the flag reports hasValue true.  Hence a
Sub flag can hold a textual value, contrary to the claim (see the
counterexample). -/
theorem C3_pending_sub_binds_value
    (subP : Flags → List Str → Flags × Option Err) (f : Flags) (cur : Str)
    (later : List Str) (saved : Str) (p : Flag)
    (h1 : trimSpace cur ≠ []) (hn : f.findflag (trimSpace cur) = Option.none)
    (hs : saved ≠ []) (hp : f.findflag saved = Option.some p)
    (hk : p.kind = FlagKind.KindSub) (hkey : f.Key p.key = Option.some p)
    (hpar : p.parsed = false)
    (hexcl : p.excl = true → findExclParsed f.keysOf = Option.none) :
    parseLoop subP f saved (cur :: later) =
      parseLoop subP
        (setFlagAt f p.key
          (((p.withParsed true).withValue (trimSpace cur)).withParsedval true)) [] later ∧
    (((p.withParsed true).withValue (trimSpace cur)).withParsedval true).sub = p.sub ∧
    (((p.withParsed true).withValue (trimSpace cur)).withParsedval true).parsedval = true ∧
    (((p.withParsed true).withValue (trimSpace cur)).withParsedval true).value =
      trimSpace cur := by
  refine ⟨?_, by simp, by simp, by simp⟩
  by_cases hpe : p.excl = true
  · simp [parseLoop, h1, hn, hs, hp, hk, consume, hkey, hpar, hpe, hexcl hpe, consumeSet]
  · simp only [Bool.not_eq_true] at hpe
    simp [parseLoop, h1, hn, hs, hp, hk, consume, hkey, hpar, hpe, consumeSet]

/-- Witness for C3_pending_sub_binds_value: pending `-S` (the Sub flag of
`c3root`, child attached) followed by the unresolvable token "xyz". -/
theorem C3_witness :
    parseLoop (parseRun 0) c3root ("-S".toList) [("xyz".toList)] =
        parseLoop (parseRun 0)
          (setFlagAt c3root c3sync.key
            (((c3sync.withParsed true).withValue (trimSpace ("xyz".toList))).withParsedval true))
          [] [] ∧
      (((c3sync.withParsed true).withValue
          (trimSpace ("xyz".toList))).withParsedval true).sub = c3sync.sub :=
  ⟨(C3_pending_sub_binds_value (parseRun 0) c3root ("xyz".toList) [] ("-S".toList) c3sync
      (by decide) rfl (by decide) rfl rfl rfl rfl (fun h => absurd h (by decide))).1,
    (C3_pending_sub_binds_value (parseRun 0) c3root ("xyz".toList) [] ("-S".toList) c3sync
      (by decide) rfl (by decide) rfl rfl rfl rfl (fun h => absurd h (by decide))).2.1⟩

theorem KeyList.klookup_setAt_self : ∀ (ks : KeyList) (key : Str) (nfl : Flag),
    (ks.klookup key).isSome = true → (ks.setAt key nfl).klookup key = Option.some nfl
  | .nil, key, nfl => by simp [KeyList.klookup]
  | .cons k fl rest, key, nfl => by
    intro h
    by_cases hk : k = key
    · simp [KeyList.setAt, KeyList.klookup, hk]
    · simp [KeyList.setAt, KeyList.klookup, hk] at h ⊢
      exact KeyList.klookup_setAt_self rest key nfl h

theorem KeyList.klookup_setAt_ne : ∀ (ks : KeyList) (key k : Str) (nfl : Flag), k ≠ key →
    (ks.setAt key nfl).klookup k = ks.klookup k
  | .nil, key, k, nfl, _ => rfl
  | .cons k0 fl rest, key, k, nfl, h => by
    have hrec := KeyList.klookup_setAt_ne rest key k nfl h
    simp only [KeyList.setAt]
    by_cases hk0 : k0 = key
    · have hkey : ¬ k0 = k := by rw [hk0]; exact fun e => h e.symm
      rw [if_pos hk0]
      simp only [KeyList.klookup]
      rw [if_neg hkey, if_neg hkey]
    · rw [if_neg hk0]
      simp only [KeyList.klookup]
      by_cases hk0k : k0 = k
      · rw [if_pos hk0k, if_pos hk0k]
      · rw [if_neg hk0k, if_neg hk0k]
        exact hrec

theorem KeyList.klookup_clearExcl : ∀ (ks : KeyList) (k : Str),
    ks.clearExcl.klookup k = (ks.klookup k).map (fun fl => fl.withExcl false)
  | .nil, k => rfl
  | .cons k0 fl rest, k => by
    by_cases hk0 : k0 = k
    · simp [KeyList.clearExcl, KeyList.klookup, hk0]
    · simp [KeyList.clearExcl, KeyList.klookup, hk0, KeyList.klookup_clearExcl rest k]

theorem Key_setAt_self (f : Flags) (key : Str) (nfl : Flag)
    (h : (f.Key key).isSome = true) : (setFlagAt f key nfl).Key key = Option.some nfl := by
  cases f
  exact KeyList.klookup_setAt_self _ key nfl h

theorem Key_setAt_ne (f : Flags) (key k : Str) (nfl : Flag) (h : k ≠ key) :
    (setFlagAt f key nfl).Key k = f.Key k := by
  cases f
  exact KeyList.klookup_setAt_ne _ key k nfl h

/-- Core lemma for the Exclusive claim: running the marking loop on a key
list whose first undefined key is `bad` (all of `pre` defined) yields
NotFound for `bad`, and afterwards a flag's exclusivity equals its previous
exclusivity or-ed with membership of its key in `pre`. -/
theorem exclLoop_spec (bad : Str) (post : List Str) :
    ∀ (pre : List Str) (f : Flags),
      (∀ k, k ∈ pre → (f.Key k).isSome = true) → f.Key bad = Option.none →
      (exclLoop f (pre ++ bad :: post)).2 = Option.some (Err.notFound bad) ∧
      (∀ k fl, (exclLoop f (pre ++ bad :: post)).1.Key k = Option.some fl →
        ∃ fl0, f.Key k = Option.some fl0 ∧ fl.excl = (fl0.excl || decide (k ∈ pre)))
  | [], f, hpre, hbad => by
    constructor
    · simp [exclLoop, hbad]
    · intro k fl h
      simp [exclLoop, hbad] at h
      exact ⟨fl, h, by simp⟩
  | p :: pre2, f, hpre, hbad => by
    have hpsome : (f.Key p).isSome = true := hpre p (List.mem_cons_self p pre2)
    obtain ⟨flp, hflp⟩ := Option.isSome_iff_exists.mp hpsome
    have hstep : exclLoop f ((p :: pre2) ++ bad :: post) =
        exclLoop (setFlagAt f p (flp.withExcl true)) (pre2 ++ bad :: post) := by
      simp [exclLoop, hflp]
    have h2pre : ∀ k, k ∈ pre2 →
        ((setFlagAt f p (flp.withExcl true)).Key k).isSome = true := by
      intro k hk
      by_cases hkp : k = p
      · subst hkp
        rw [Key_setAt_self f k _ hpsome]
        rfl
      · rw [Key_setAt_ne f p k _ hkp]
        exact hpre k (List.mem_cons_of_mem p hk)
    have h2bad : (setFlagAt f p (flp.withExcl true)).Key bad = Option.none := by
      have hbp : bad ≠ p := by
        intro e
        rw [e, hflp] at hbad
        cases hbad
      rw [Key_setAt_ne f p bad _ hbp]
      exact hbad
    obtain ⟨ih1, ih2⟩ := exclLoop_spec bad post pre2 (setFlagAt f p (flp.withExcl true))
      h2pre h2bad
    refine ⟨by rw [hstep]; exact ih1, ?_⟩
    intro k fl h
    rw [hstep] at h
    obtain ⟨fl0, h0, hex⟩ := ih2 k fl h
    by_cases hkp : k = p
    · subst hkp
      rw [Key_setAt_self f k _ hpsome] at h0
      refine ⟨flp, hflp, ?_⟩
      have hfl0 : fl0 = flp.withExcl true := by
        injection h0 with h0
        exact h0.symm
      subst hfl0
      simp at hex
      simp [hex, List.mem_cons]
    · rw [Key_setAt_ne f p k _ hkp] at h0
      refine ⟨fl0, h0, ?_⟩
      rw [hex]
      congr 1
      rw [decide_eq_decide]
      simp [List.mem_cons, hkp]

/-- Claim C6, amended.  If Exclusive is called with a key list whose first
undefined key is `bad` (all earlier keys defined), it returns NotFound for
`bad`; the previous exclusive set has been cleared, but the keys listed
before `bad` have already been marked: afterwards a flag is exclusive
exactly when its key occurs before the first undefined key in the argument
list.  The original claim's "no flag is marked exclusive afterwards" fails
(see the counterexample). -/
theorem C6_exclusive_after_failure (f : Flags) (pre : List Str) (bad : Str)
    (post : List Str) (hpre : ∀ k, k ∈ pre → (f.Key k).isSome = true)
    (hbad : f.Key bad = Option.none) :
    (f.Exclusive (pre ++ bad :: post)).2 = Option.some (Err.notFound bad) ∧
    ∀ k fl, (f.Exclusive (pre ++ bad :: post)).1.Key k = Option.some fl →
      (fl.excl = true ↔ k ∈ pre) := by
  have hclKey : ∀ k, (Flags.mk f.keysOf.clearExcl f.shortOf f.lastOf).Key k =
      (f.Key k).map (fun fl => fl.withExcl false) := by
    intro k
    cases f
    exact KeyList.klookup_clearExcl _ k
  have hpre2 : ∀ k, k ∈ pre →
      ((Flags.mk f.keysOf.clearExcl f.shortOf f.lastOf).Key k).isSome = true := by
    intro k hk
    have hks := hpre k hk
    rw [hclKey k]
    cases hfk : f.Key k with
    | none => rw [hfk] at hks; simp at hks
    | some fl1 => rfl
  have hbad2 : (Flags.mk f.keysOf.clearExcl f.shortOf f.lastOf).Key bad = Option.none := by
    rw [hclKey bad, hbad]
    rfl
  obtain ⟨h1, h2⟩ := exclLoop_spec bad post pre
    (Flags.mk f.keysOf.clearExcl f.shortOf f.lastOf) hpre2 hbad2
  refine ⟨h1, ?_⟩
  intro k fl h
  obtain ⟨fl0, h0, hex⟩ := h2 k fl h
  rw [hclKey k] at h0
  have hfl0excl : fl0.excl = false := by
    cases hfk : f.Key k with
    | none => rw [hfk] at h0; cases h0
    | some fl1 =>
      rw [hfk] at h0
      injection h0 with h0
      rw [← h0]
      simp
  rw [hfl0excl] at hex
  simp only [Bool.false_or] at hex
  rw [hex]
  simp

/-- Witness for C6_exclusive_after_failure on `c6f` with pre = [alpha],
bad = zzz: the call fails with NotFound zzz and alpha is exclusive. -/
theorem C6_witness :
    (c6f.Exclusive [("alpha".toList), ("zzz".toList)]).2 =
        Option.some (Err.notFound ("zzz".toList)) ∧
      c6alphaExcl.excl = true :=
  have h := C6_exclusive_after_failure c6f [("alpha".toList)] ("zzz".toList) []
    (by
      intro k hk
      rw [List.mem_singleton] at hk
      subst hk
      rfl)
    rfl
  ⟨h.1, (h.2 ("alpha".toList) c6alphaExcl rfl).mpr (by simp)⟩

/-- Claim C10, amended.  For a one-dash token whose body has two or more
characters and does not itself start with a dash, resolution succeeds
exactly when the body's first character is a defined short key (first
conjunct).  Moreover every successful resolution goes either through the
single-character short-key lookup of the body's first character or through
the long-form full-key lookup (second conjunct) — never through a
multi-character short key, so a flag whose declared short key has two or
more characters can never be resolved through that short key; it remains
resolvable through its long form `--key`, which refutes the original
claim's "never resolved from any input token" (see the counterexample). -/
theorem C10_first_char_resolution :
    (∀ (f : Flags) (c : Char) (rest : Str), rest ≠ [] → c ≠ '-' →
        (f.findflag ('-' :: c :: rest)).isSome = (f.Short [c]).isSome) ∧
    (∀ (f : Flags) (c : Char) (rest : Str) (fl : Flag),
        f.findflag ('-' :: c :: rest) = Option.some fl →
        f.Short [c] = Option.some fl ∨ (c = '-' ∧ f.Key rest = Option.some fl)) := by
  constructor
  · intro f c rest hr hc
    have hm : f.matchcombined (c :: rest) = true := by simp [matchcombined_eq]
    cases hS : f.Short [c] with
    | some fl => simp [Flags.findflag, hm, hS]
    | none => simp [Flags.findflag, hm, hS, hc]
  · intro f c rest fl h
    have hm : f.matchcombined (c :: rest) = true := by simp [matchcombined_eq]
    cases hS : f.Short [c] with
    | some fl2 =>
      left
      rw [Flags.findflag] at h
      simp [hm, hS] at h
      rw [h]
    | none =>
      right
      rw [Flags.findflag] at h
      simp [hm, hS] at h
      by_cases hc : c = '-'
      · subst hc
        simp at h
        exact ⟨rfl, h⟩
      · simp [hc] at h

/-- Witness for C10_first_char_resolution: a two-character body on `reg8`
(first conjunct) and the long-form resolution of the flag with short key
"xy" (second conjunct). -/
theorem C10_witness :
    (reg8.findflag ("-vx".toList)).isSome = (reg8.Short ("v".toList)).isSome ∧
      (c10reg.Short ("-".toList) = Option.some c10flag ∨
        ('-' = '-' ∧ c10reg.Key ("name".toList) = Option.some c10flag)) :=
  ⟨C10_first_char_resolution.1 reg8 'v' ("x".toList) (by decide) (by decide),
    C10_first_char_resolution.2 c10reg '-' ("name".toList) c10flag rfl⟩

theorem Rdef_refl (f : Flags) : Rdef f f := fun _ => rfl

theorem Rdef_trans {f g h : Flags} (h1 : Rdef f g) (h2 : Rdef g h) : Rdef f h :=
  fun k => (h2 k).trans (h1 k)

theorem coherentK_klookup : ∀ (ks : KeyList), coherentK ks = true →
    ∀ (k : Str) (fl : Flag), ks.klookup k = Option.some fl → fl.key = k
  | .nil, _, k, fl, h => by cases h
  | .cons k0 fl0 rest, hcoh, k, fl, h => by
    simp [coherentK] at hcoh
    by_cases hk0 : k0 = k
    · simp [KeyList.klookup, hk0] at h
      rw [← h, hcoh.1, hk0]
    · simp [KeyList.klookup, hk0] at h
      exact coherentK_klookup rest hcoh.2 k fl h

theorem coherentK_setAt : ∀ (ks : KeyList) (key : Str) (nfl : Flag),
    coherentK ks = true → nfl.key = key → coherentK (ks.setAt key nfl) = true
  | .nil, key, nfl, _, _ => rfl
  | .cons k0 fl0 rest, key, nfl, hcoh, hkey => by
    simp [coherentK] at hcoh
    by_cases hk0 : k0 = key
    · simp [KeyList.setAt, hk0, coherentK, hkey, hcoh.2]
    · simp [KeyList.setAt, hk0, coherentK, hcoh.1,
        coherentK_setAt rest key nfl hcoh.2 hkey]

theorem coherentK_resetAll : ∀ (ks : KeyList), coherentK ks = true →
    coherentK ks.resetAll = true
  | .nil, _ => rfl
  | .cons k0 fl0 rest, hcoh => by
    simp [coherentK] at hcoh
    simp [KeyList.resetAll, coherentK, hcoh.1, coherentK_resetAll rest hcoh.2]

theorem KeyList.klookup_resetAll : ∀ (ks : KeyList) (k : Str),
    ks.resetAll.klookup k = (ks.klookup k).map Flag.resetF
  | .nil, k => rfl
  | .cons k0 fl rest, k => by
    by_cases hk0 : k0 = k
    · simp [KeyList.resetAll, KeyList.klookup, hk0]
    · simp [KeyList.resetAll, KeyList.klookup, hk0, KeyList.klookup_resetAll rest k]

@[simp] theorem keysOf_setFlagAt (f : Flags) (key : Str) (nfl : Flag) :
    (setFlagAt f key nfl).keysOf = f.keysOf.setAt key nfl := by
  cases f; rfl

@[simp] theorem Key_setLast (f : Flags) (s k : Str) : (setLast f s).Key k = f.Key k := by
  cases f; rfl

@[simp] theorem keysOf_setLast (f : Flags) (s : Str) : (setLast f s).keysOf = f.keysOf := by
  cases f; rfl

theorem Rdef_setAt (f : Flags) (key : Str) (nfl fl0 : Flag)
    (h : f.Key key = Option.some fl0) (hd : nfl.defval = fl0.defval) :
    Rdef f (setFlagAt f key nfl) := by
  intro k
  by_cases hk : k = key
  · subst hk
    rw [Key_setAt_self f k nfl (by rw [h]; rfl), h]
    simp [hd]
  · rw [Key_setAt_ne f key k nfl hk]

theorem Key_reset (f : Flags) (k : Str) : f.reset.Key k = (f.Key k).map Flag.resetF := by
  cases f
  exact KeyList.klookup_resetAll _ k

theorem Rdef_reset (f : Flags) : Rdef f f.reset := by
  intro k
  rw [Key_reset]
  cases f.Key k <;> simp

theorem consumeSet_Rdef (f : Flags) (key : Str) (fl : Flag) (v : Str)
    (hK : f.Key key = Option.some fl) : Rdef f (consumeSet f key fl v) := by
  unfold consumeSet
  by_cases hv : v = []
  · rw [if_pos hv]
    exact Rdef_setAt f key _ fl hK (by simp)
  · rw [if_neg hv]
    exact Rdef_setAt f key _ fl hK (by simp)

theorem consume_Rdef (f : Flags) (key v : Str) : Rdef f (consume f key v).1 := by
  unfold consume
  cases hK : f.Key key with
  | none => exact Rdef_refl f
  | some fl =>
    by_cases hp : fl.parsed
    · simp [hp]
      exact Rdef_refl f
    · by_cases he : fl.excl
      · simp [hp, he]
        cases hfe : findExclParsed f.keysOf with
        | some v2 => exact Rdef_refl f
        | none => exact consumeSet_Rdef f key fl v hK
      · simp [hp, he]
        exact consumeSet_Rdef f key fl v hK

theorem consumeSet_coherent (f : Flags) (key : Str) (fl : Flag) (v : Str)
    (hcoh : coherentK f.keysOf = true) (hK : f.Key key = Option.some fl) :
    coherentK (consumeSet f key fl v).keysOf = true := by
  have hkey : fl.key = key := coherentK_klookup f.keysOf hcoh key fl hK
  unfold consumeSet
  by_cases hv : v = []
  · rw [if_pos hv, keysOf_setFlagAt]
    exact coherentK_setAt f.keysOf key _ hcoh (by simp [hkey])
  · rw [if_neg hv, keysOf_setFlagAt]
    exact coherentK_setAt f.keysOf key _ hcoh (by simp [hkey])

theorem consume_coherent (f : Flags) (key v : Str)
    (hcoh : coherentK f.keysOf = true) : coherentK (consume f key v).1.keysOf = true := by
  unfold consume
  cases hK : f.Key key with
  | none => exact hcoh
  | some fl =>
    by_cases hp : fl.parsed
    · simp [hp]
      exact hcoh
    · by_cases he : fl.excl
      · simp [hp, he]
        cases hfe : findExclParsed f.keysOf with
        | some v2 => exact hcoh
        | none => exact consumeSet_coherent f key fl v hcoh hK
      · simp [hp, he]
        exact consumeSet_coherent f key fl v hcoh hK

theorem findflag_key_lookup : ∀ (f : Flags) (arg : Str) (fl : Flag),
    f.findflag arg = Option.some fl → ∃ k0, f.Key k0 = Option.some fl := by
  intro f arg fl h
  cases arg with
  | nil => cases h
  | cons a0 key =>
    rw [Flags.findflag.eq_def] at h
    dsimp only at h
    by_cases ha : a0 = '-'
    · rw [if_pos ha] at h
      cases key with
      | nil =>
        cases hS : f.Short [] with
        | some fl2 =>
          have hS2 : f.Key ((slookup [] f.shortOf).getD []) = Option.some fl2 := hS
          simp [hS] at h
          exact ⟨_, by rw [hS2, h]⟩
        | none => simp [hS] at h
      | cons c cs =>
        by_cases hm : f.matchcombined (c :: cs) = true
        · cases hS : f.Short [c] with
          | some fl2 =>
            have hS2 : f.Key ((slookup [c] f.shortOf).getD []) = Option.some fl2 := hS
            simp [hm, hS] at h
            exact ⟨_, by rw [hS2, h]⟩
          | none =>
            simp [hm, hS] at h
            exact ⟨cs, h.2⟩
        · cases hS : f.Short (c :: cs) with
          | some fl2 =>
            have hS2 : f.Key ((slookup (c :: cs) f.shortOf).getD []) = Option.some fl2 := hS
            simp [hm, hS] at h
            exact ⟨_, by rw [hS2, h]⟩
          | none =>
            simp [hm, hS] at h
            exact ⟨cs, h.2⟩
    · rw [if_neg ha] at h
      cases h

theorem findflag_self_lookup (f : Flags) (arg : Str) (fl : Flag)
    (hcoh : coherentK f.keysOf = true) (h : f.findflag arg = Option.some fl) :
    f.Key fl.key = Option.some fl := by
  obtain ⟨k0, hk0⟩ := findflag_key_lookup f arg fl h
  have : fl.key = k0 := coherentK_klookup f.keysOf hcoh k0 fl hk0
  rw [this]
  exact hk0

theorem flushAndValidate_SP (f : Flags) (saved : Str) (hcoh : coherentK f.keysOf = true) :
    Rdef f (flushAndValidate f saved).1 ∧
      coherentK (flushAndValidate f saved).1.keysOf = true := by
  unfold flushAndValidate
  by_cases hsv : saved = []
  · simp [hsv]
    exact ⟨Rdef_refl f, hcoh⟩
  · simp [hsv]
    cases hff : f.findflag saved with
    | none => exact ⟨Rdef_refl f, hcoh⟩
    | some p =>
      by_cases hk : p.kind = FlagKind.KindRequired
      · simp [hk]
        exact ⟨Rdef_refl f, hcoh⟩
      · simp [hk]
        cases hc : consume f p.key [] with
        | mk f2 err =>
          have hR : Rdef f f2 := by
            have h := consume_Rdef f p.key []
            rw [hc] at h
            exact h
          have hC : coherentK f2.keysOf = true := by
            have h := consume_coherent f p.key [] hcoh
            rw [hc] at h
            exact h
          cases err with
          | none => exact ⟨hR, hC⟩
          | some e => exact ⟨hR, hC⟩

theorem parseLoop_SP : ∀ (subP : Flags → List Str → Flags × Option Err) (rest : List Str)
    (f : Flags) (saved : Str), coherentK f.keysOf = true →
    Rdef f (parseLoop subP f saved rest).1 ∧
      coherentK (parseLoop subP f saved rest).1.keysOf = true
  | subP, [], f, saved, hcoh => by
    simpa [parseLoop] using flushAndValidate_SP f saved hcoh
  | subP, cur :: later, f, saved, hcoh => by
    by_cases h1 : trimSpace cur = []
    · simpa [parseLoop, h1] using parseLoop_SP subP later f saved hcoh
    · cases hff : f.findflag (trimSpace cur) with
      | none =>
        by_cases hsv : saved = []
        · simpa [parseLoop, h1, hff, hsv] using parseLoop_SP subP later f (trimSpace cur) hcoh
        · cases hfs : f.findflag saved with
          | none =>
            simp [parseLoop, h1, hff, hsv, hfs]
            exact ⟨Rdef_refl f, hcoh⟩
          | some p =>
            by_cases hk : p.kind = FlagKind.KindSwitch
            · simp [parseLoop, h1, hff, hsv, hfs, hk]
              exact ⟨Rdef_refl f, hcoh⟩
            · cases hc : consume f p.key (trimSpace cur) with
              | mk f2 err =>
                have hR : Rdef f f2 := by
                  have h := consume_Rdef f p.key (trimSpace cur)
                  rw [hc] at h
                  exact h
                have hC : coherentK f2.keysOf = true := by
                  have h := consume_coherent f p.key (trimSpace cur) hcoh
                  rw [hc] at h
                  exact h
                cases err with
                | some e =>
                  simp [parseLoop, h1, hff, hsv, hfs, hk, hc]
                  exact ⟨hR, hC⟩
                | none =>
                  have ih := parseLoop_SP subP later f2 [] hC
                  simp [parseLoop, h1, hff, hsv, hfs, hk, hc]
                  exact ⟨Rdef_trans hR ih.1, ih.2⟩
      | some fl =>
        by_cases hsv : saved = []
        · cases hsub : fl.sub with
          | none =>
            simpa [parseLoop, h1, hff, hsv, hsub] using parseLoop_SP subP later f cur hcoh
          | some sOF =>
            have hKfl : f.Key fl.key = Option.some fl := findflag_self_lookup f _ fl hcoh hff
            subst hsv
            simp only [parseLoop]
            rw [if_neg h1]
            simp only [hff]
            simp only [if_true]
            simp only [hsub]
            by_cases hcnd : later = [] ∧ f.matchcombined (trimSpace cur) = true ∧
                ((trimSpace cur).drop 1).length = 1
            · rw [if_pos hcnd]
              exact ⟨Rdef_refl f, hcoh⟩
            · rw [if_neg hcnd]
              by_cases hm : f.matchcombined (trimSpace cur) = true
              · rw [if_pos hm]
                cases hsp : subP sOF ((((trimSpace cur).drop 1).map (fun c => ['-', c])).drop 1
                    ++ later) with
                | mk s2 err =>
                  dsimp only
                  refine ⟨Rdef_setAt f fl.key _ fl hKfl (by simp), ?_⟩
                  rw [keysOf_setFlagAt]
                  exact coherentK_setAt f.keysOf fl.key _ hcoh (by simp)
              · rw [if_neg hm]
                cases hsp : subP sOF later with
                | mk s2 err =>
                  dsimp only
                  refine ⟨Rdef_setAt f fl.key _ fl hKfl (by simp), ?_⟩
                  rw [keysOf_setFlagAt]
                  exact coherentK_setAt f.keysOf fl.key _ hcoh (by simp)
        · cases hfs : f.findflag saved with
          | none =>
            simp [parseLoop, h1, hff, hsv, hfs]
            exact ⟨Rdef_refl f, hcoh⟩
          | some p =>
            by_cases hk : p.kind = FlagKind.KindRequired
            · simp [parseLoop, h1, hff, hsv, hfs, hk]
              exact ⟨Rdef_refl f, hcoh⟩
            · cases hc : consume f p.key [] with
              | mk f2 err =>
                have hR : Rdef f f2 := by
                  have h := consume_Rdef f p.key []
                  rw [hc] at h
                  exact h
                have hC : coherentK f2.keysOf = true := by
                  have h := consume_coherent f p.key [] hcoh
                  rw [hc] at h
                  exact h
                cases err with
                | some e =>
                  simp [parseLoop, h1, hff, hsv, hfs, hk, hc]
                  exact ⟨hR, hC⟩
                | none =>
                  have ih := parseLoop_SP subP later f2 (trimSpace cur) hC
                  simp [parseLoop, h1, hff, hsv, hfs, hk, hc]
                  exact ⟨Rdef_trans hR ih.1, ih.2⟩

theorem parseRun_SP (n : Nat) (f : Flags) (args : List Str)
    (hcoh : coherentK f.keysOf = true) :
    Rdef f (parseRun n f args).1 ∧ coherentK (parseRun n f args).1.keysOf = true := by
  cases n with
  | zero => exact ⟨Rdef_refl f, hcoh⟩
  | succ m =>
    have hcoh2 : coherentK ((setLast f (joinSpace args)).reset).keysOf = true := by
      cases f
      exact coherentK_resetAll _ hcoh
    have hR : Rdef f ((setLast f (joinSpace args)).reset) := by
      intro k
      rw [Key_reset, Key_setLast]
      cases f.Key k <;> simp
    have h := parseLoop_SP (parseRun m) args ((setLast f (joinSpace args)).reset) [] hcoh2
    exact ⟨Rdef_trans hR (by simpa [parseRun] using h.1), by simpa [parseRun] using h.2⟩

/-- Claim C9.  For every coherent registry and any Parse call, every declared
flag is still present afterwards with its declared default preserved, and a
flag whose parsed state is false — which is exactly the state of a flag the
parse never matched, since the dispatch marking and consume are the only
sites that set it — reports the originally declared default through Value.
(`wasParsed` false and `Value` equal to the declared default are the claim's
two observables; "never matched" is formalised by the resulting parsed state,
the only way a flag becomes marked.) -/
theorem C9_default_preserved (f : Flags) (args : List Str) (k : Str) (fl : Flag)
    (hcoh : coherentK f.keysOf = true) (hK : f.Key k = Option.some fl) :
    ((Flags.Parse f args).1.Key k).isSome = true ∧
      defvalAt (Flags.Parse f args).1 k = fl.defval ∧
      (parsedAt (Flags.Parse f args).1 k = false →
        ValueAt (Flags.Parse f args).1 k = fl.defval) := by
  obtain ⟨hR, _⟩ := parseRun_SP (f.depthF + 1) f args hcoh
  have h1 := hR k
  rw [hK] at h1
  have h1 : ((Flags.Parse f args).1.Key k).map Flag.defval = Option.some fl.defval := h1
  cases hres : (Flags.Parse f args).1.Key k with
  | none => rw [hres] at h1; cases h1
  | some fl2 =>
    rw [hres] at h1
    have hd : fl2.defval = fl.defval := by
      injection h1
    refine ⟨rfl, ?_, ?_⟩
    · simp [defvalAt, hres, hd]
    · intro hp
      simp only [parsedAt, hres] at hp
      simp [ValueAt, hres, Flag.Value, hp, hd]

/-- Witness for C9_default_preserved: spec section 8's round trip — after a
parse not mentioning `mode`, it reports parsed false and Value "best". -/
theorem C9_witness :
    coherentK reg8.keysOf = true ∧ reg8.Key ("mode".toList) = Option.some reg8mode ∧
      (Flags.Parse reg8 c9args).2 = Option.none ∧
      parsedAt (Flags.Parse reg8 c9args).1 ("mode".toList) = false ∧
      ValueAt (Flags.Parse reg8 c9args).1 ("mode".toList) = ("best".toList) :=
  ⟨rfl, rfl, rfl, rfl,
    (C9_default_preserved reg8 c9args ("mode".toList) reg8mode rfl rfl).2.2 rfl⟩

@[simp] theorem Flag.withParsed_depthFl (fl : Flag) (b : Bool) :
    (fl.withParsed b).depthFl = fl.depthFl := by
  cases fl; rfl

@[simp] theorem Flag.withParsedval_depthFl (fl : Flag) (b : Bool) :
    (fl.withParsedval b).depthFl = fl.depthFl := by
  cases fl; rfl

@[simp] theorem Flag.withValue_depthFl (fl : Flag) (nv : Str) :
    (fl.withValue nv).depthFl = fl.depthFl := by
  cases fl; rfl

theorem KeyList.depthK_setAt : ∀ (ks : KeyList) (key : Str) (nfl fl0 : Flag),
    ks.klookup key = Option.some fl0 → nfl.depthFl = fl0.depthFl →
    (ks.setAt key nfl).depthK = ks.depthK
  | .nil, key, nfl, fl0 => by
    intro hl
    cases hl
  | .cons k0 f0 rest, key, nfl, fl0 => by
    intro hl hd
    by_cases hk0 : k0 = key
    · simp [KeyList.klookup, hk0] at hl
      simp [KeyList.setAt, hk0, KeyList.depthK, hd, hl]
    · simp [KeyList.klookup, hk0] at hl
      simp [KeyList.setAt, hk0, KeyList.depthK,
        KeyList.depthK_setAt rest key nfl fl0 hl hd]

theorem KeyList.klookup_depthFl_le : ∀ (ks : KeyList) (k : Str) (fl : Flag),
    ks.klookup k = Option.some fl → fl.depthFl ≤ ks.depthK
  | .nil, k, fl => by
    intro hl
    cases hl
  | .cons k0 f0 rest, k, fl => by
    intro hl
    by_cases hk0 : k0 = k
    · simp [KeyList.klookup, hk0] at hl
      simp only [KeyList.depthK, hl]
      omega
    · simp [KeyList.klookup, hk0] at hl
      have := KeyList.klookup_depthFl_le rest k fl hl
      simp only [KeyList.depthK]
      omega

theorem Flag.depthFl_of_sub : ∀ (fl : Flag) (s : Flags), fl.sub = OptFlags.some s →
    fl.depthFl = s.depthF
  | .mk k sk hh ph dv kd sb ex p pv v, s => by
    intro h
    simp [Flag.sub] at h
    simp [Flag.depthFl, h, OptFlags.depthO]

theorem consumeSet_depth (f : Flags) (key : Str) (fl : Flag) (v : Str)
    (hK : f.Key key = Option.some fl) :
    (consumeSet f key fl v).keysOf.depthK = f.keysOf.depthK := by
  unfold consumeSet
  by_cases hv : v = []
  · rw [if_pos hv, keysOf_setFlagAt]
    exact KeyList.depthK_setAt f.keysOf key _ fl hK (by simp)
  · rw [if_neg hv, keysOf_setFlagAt]
    exact KeyList.depthK_setAt f.keysOf key _ fl hK (by simp)

theorem consume_depth (f : Flags) (key v : Str) :
    (consume f key v).1.keysOf.depthK = f.keysOf.depthK := by
  unfold consume
  cases hK : f.Key key with
  | none => rfl
  | some fl =>
    by_cases hp : fl.parsed
    · simp [hp]
    · by_cases he : fl.excl
      · simp [hp, he]
        cases hfe : findExclParsed f.keysOf with
        | some v2 => rfl
        | none => exact consumeSet_depth f key fl v hK
      · simp [hp, he]
        exact consumeSet_depth f key fl v hK

theorem findflag_sub_depth (f : Flags) (arg : Str) (fl : Flag) (s : Flags)
    (hff : f.findflag arg = Option.some fl) (hsub : fl.sub = OptFlags.some s) :
    s.depthF ≤ f.keysOf.depthK := by
  obtain ⟨k0, hk0⟩ := findflag_key_lookup f arg fl hff
  have h1 : fl.depthFl ≤ f.keysOf.depthK := KeyList.klookup_depthFl_le f.keysOf k0 fl hk0
  rw [← Flag.depthFl_of_sub fl s hsub]
  exact h1

/-- The token loop only consults the sub-parser on registries whose depth is
bounded by the current registry's key-map depth, so two sub-parsers agreeing
on all such registries produce the same loop results. -/
theorem parseLoop_congr : ∀ (subP1 subP2 : Flags → List Str → Flags × Option Err)
    (rest : List Str) (f : Flags) (saved : Str),
    (∀ (s : Flags) (a : List Str), s.depthF ≤ f.keysOf.depthK → subP1 s a = subP2 s a) →
    parseLoop subP1 f saved rest = parseLoop subP2 f saved rest
  | subP1, subP2, [], f, saved, H => by simp [parseLoop]
  | subP1, subP2, cur :: later, f, saved, H => by
    by_cases h1 : trimSpace cur = []
    · simp only [parseLoop, if_pos h1]
      exact parseLoop_congr subP1 subP2 later f saved H
    · simp only [parseLoop, if_neg h1]
      cases hff : f.findflag (trimSpace cur) with
      | none =>
        dsimp only
        by_cases hsv : saved = []
        · rw [if_pos hsv, if_pos hsv]
          exact parseLoop_congr subP1 subP2 later f (trimSpace cur) H
        · rw [if_neg hsv, if_neg hsv]
          cases hfs : f.findflag saved with
          | none => rfl
          | some p =>
            dsimp only
            by_cases hk : p.kind = FlagKind.KindSwitch
            · rw [if_pos hk, if_pos hk]
            · rw [if_neg hk, if_neg hk]
              cases hc : consume f p.key (trimSpace cur) with
              | mk f2 err =>
                cases err with
                | some e => rfl
                | none =>
                  have hdep : f2.keysOf.depthK = f.keysOf.depthK := by
                    have h := consume_depth f p.key (trimSpace cur)
                    rw [hc] at h
                    exact h
                  exact parseLoop_congr subP1 subP2 later f2 []
                    (fun s a hs => H s a (by rw [← hdep]; exact hs))
      | some fl =>
        dsimp only
        by_cases hsv : saved = []
        · rw [if_pos hsv, if_pos hsv]
          cases hsub : fl.sub with
          | none => exact parseLoop_congr subP1 subP2 later f cur H
          | some sOF =>
            dsimp only
            have hb : sOF.depthF ≤ f.keysOf.depthK :=
              findflag_sub_depth f (trimSpace cur) fl sOF hff hsub
            rw [H sOF ((((trimSpace cur).drop 1).map (fun c => ['-', c])).drop 1 ++ later) hb,
              H sOF later hb]
        · rw [if_neg hsv, if_neg hsv]
          cases hfs : f.findflag saved with
          | none => rfl
          | some p =>
            dsimp only
            by_cases hk : p.kind = FlagKind.KindRequired
            · rw [if_pos hk, if_pos hk]
            · rw [if_neg hk, if_neg hk]
              cases hc : consume f p.key [] with
              | mk f2 err =>
                cases err with
                | some e => rfl
                | none =>
                  have hdep : f2.keysOf.depthK = f.keysOf.depthK := by
                    have h := consume_depth f p.key []
                    rw [hc] at h
                    exact h
                  exact parseLoop_congr subP1 subP2 later f2 (trimSpace cur)
                    (fun s a hs => H s a (by rw [← hdep]; exact hs))

theorem one_le_depthF (f : Flags) : 1 ≤ f.depthF := by
  cases f
  simp [Flags.depthF]

/-- Fuel irrelevance: any fuel at least the registry depth gives the same
result, so `Flags.Parse`'s choice `depthF + 1` computes the untruncated
recursion — the fuel-exhaustion branch of `parseRun` is unreachable from
`Flags.Parse`. -/
theorem parseRun_fuel_irrelevant : ∀ (n : Nat) (f : Flags) (args : List Str) (m : Nat),
    f.depthF ≤ n → f.depthF ≤ m → parseRun n f args = parseRun m f args := by
  intro n
  induction n with
  | zero =>
    intro f args m hn _
    have := one_le_depthF f
    omega
  | succ n ih =>
    intro f args m hn hm
    cases m with
    | zero =>
      have := one_le_depthF f
      omega
    | succ m2 =>
      simp only [parseRun]
      have hg : ((setLast f (joinSpace args)).reset).keysOf.depthK = f.keysOf.depthK := by
        cases f
        exact KeyList.depthK_resetAll _
      have hdf : f.keysOf.depthK + 1 = f.depthF := by
        cases f
        rfl
      apply parseLoop_congr
      intro s a hs
      rw [hg] at hs
      exact ih s a m2 (by omega) (by omega)

/-- Parse equals the fuelled run for every sufficient fuel. -/
theorem Parse_eq_parseRun (n : Nat) (f : Flags) (args : List Str) (h : f.depthF ≤ n) :
    parseRun n f args = f.Parse args :=
  parseRun_fuel_irrelevant n f args (f.depthF + 1) h (by omega)

end Flagex
